import Mathlib

/-!
Verification of the nebulus-db in-memory document engine
(`src/packages/wasm/wasm/src`: `document.rs`, `query.rs`, `index.rs`,
`lib.rs`) against its natural-language specification.

The Rust code is shallowly embedded:

* `serde_json::Value` becomes the inductive `Json`; numbers are modelled
  as `Int` (the engine compares numbers through `as_f64`, which agrees
  with integer comparison on the integer inputs used here).
* `HashMap<String, _>` and serde's object map become association lists
  `List (String × _)` accessed through `getKV` / `setKV` / `delKV`.
  Where the Rust code iterates over a `HashMap` (the index loops of
  `Collection`), iteration order is unspecified in Rust; the model
  iterates in list order, which realises one admissible order.  Where it
  iterates over a serde object (update payloads, query operator
  objects), serde's default map is a `BTreeMap` iterated in sorted key
  order; concrete inputs in the theorems below are written already in
  that sorted order.
* `HashSet<String>` becomes a duplicate-free `List String`
  (`insertSet` / `removeSet`).
* Fallible Rust functions returning `Result` become `Except` values;
  methods that mutate `&mut self` and can fail midway return the
  mutated state next to the error, since the Rust caller keeps the
  partially mutated receiver.
* The text (de)serialisation boundary (`serde_json::to_string` /
  `from_str`) is out of scope per the spec; `to_json` is modelled as the
  document list itself and `from_json` consumes a document list.
* `Document::new()` draws a fresh id from the host `generate_uuid`;
  functions that call it take the generated id(s) as an explicit
  parameter.
-/

namespace Nebulus

/-- Structured value (`serde_json::Value`), with numbers as `Int`. -/
inductive Json where
  | null
  | bool (b : Bool)
  | num (n : Int)
  | str (s : String)
  | arr (xs : List Json)
  | obj (kvs : List (String × Json))
deriving Repr

mutual

/-- Structural equality of values, `serde_json::Value`'s `==`. -/
def Json.beq : Json → Json → Bool
  | .null, .null => true
  | .bool a, .bool b => a == b
  | .num a, .num b => a == b
  | .str a, .str b => a == b
  | .arr xs, .arr ys => beqArr xs ys
  | .obj xs, .obj ys => beqObj xs ys
  | _, _ => false

def beqArr : List Json → List Json → Bool
  | [], [] => true
  | x :: xs, y :: ys => Json.beq x y && beqArr xs ys
  | _, _ => false

def beqObj : List (String × Json) → List (String × Json) → Bool
  | [], [] => true
  | (k1, v1) :: xs, (k2, v2) :: ys => k1 == k2 && Json.beq v1 v2 && beqObj xs ys
  | _, _ => false

end

instance : BEq Json := ⟨Json.beq⟩

/-- Whether a value is an object (`Value::is_object`). -/
def Json.isObject : Json → Bool
  | .obj _ => true
  | _ => false

/-- Lookup in a string-keyed map (`HashMap::get` / serde `Map::get`). -/
def getKV {α : Type} : List (String × α) → String → Option α
  | [], _ => none
  | (k', v) :: rest, k => if k' = k then some v else getKV rest k

/-- Insert-or-replace in a string-keyed map (`HashMap::insert`). -/
def setKV {α : Type} : List (String × α) → String → α → List (String × α)
  | [], k, v => [(k, v)]
  | (k', v') :: rest, k, v =>
      if k' = k then (k, v) :: rest else (k', v') :: setKV rest k v

/-- Removal from a string-keyed map (`HashMap::remove`). -/
def delKV {α : Type} : List (String × α) → String → List (String × α)
  | [], _ => []
  | (k', v') :: rest, k =>
      if k' = k then delKV rest k else (k', v') :: delKV rest k

/-- Insertion into a set of strings (`HashSet::insert`). -/
def insertSet (s : List String) (x : String) : List String :=
  if s.contains x then s else s ++ [x]

/-- Removal from a set of strings (`HashSet::remove`). -/
def removeSet (s : List String) (x : String) : List String :=
  s.filter (fun y => y ≠ x)

/-- Splitting a path on the dot character (Rust `str::split('.')`). -/
def splitOnDot (s : String) : List String :=
  go s.data []
where
  go : List Char → List Char → List String
    | [], acc => [String.mk acc.reverse]
    | c :: rest, acc =>
        if c = '.' then String.mk acc.reverse :: go rest []
        else go rest (c :: acc)

/-- Substring containment (Rust `str::contains(&str)`). -/
def strContainsSub (s pat : String) : Bool :=
  (List.range (s.data.length + 1)).any
    (fun i => (s.data.drop i).take pat.data.length == pat.data)

/-- One schemaless record (`document.rs`, `struct Document`): an id and a
field map (the serde-flattened `data`). -/
structure Document where
  id : String
  data : List (String × Json)
deriving Repr

/-- Whether the document carries an id (`Document::has_id`). -/
def Document.hasId (d : Document) : Bool :=
  !d.id.isEmpty

/-- Walk of an already split dotted path over a field map: intermediate
segments must resolve to objects, the last segment yields the field
(`Document::get`, loop body). -/
def getPath : List (String × Json) → List String → Option Json
  | m, [p] => getKV m p
  | m, p :: rest =>
      match getKV m p with
      | some (Json.obj o) => getPath o rest
      | _ => none
  | _, [] => none

/-- Dotted-path read (`Document::get`): the path `id` yields the id as a
string value, anything else walks `data`. -/
def Document.get (d : Document) (path : String) : Option Json :=
  if path = "id" then some (Json.str d.id)
  else getPath d.data (splitOnDot path)

/-- Dotted-path write into a field map (`Document::set_value`): the final
segment is inserted, intermediate segments are created as fresh objects,
and a non-object met along the way is replaced by a fresh object. -/
def setPath : List (String × Json) → List String → Json → List (String × Json)
  | m, [p], v => setKV m p v
  | m, p :: rest, v =>
      let sub :=
        match getKV m p with
        | some (Json.obj o) => o
        | _ => []
      setKV m p (Json.obj (setPath sub rest v))
  | m, [], _ => m

/-- Element-against-predicate match used by `$pull` (`document.rs`,
`item_matches`): the first recognised operator key decides; with none,
plain equality against the whole query object. -/
def itemMatchesOps (item : Json) (orig : List (String × Json)) :
    List (String × Json) → Bool
  | [] => item == Json.obj orig
  | (op, v) :: rest =>
      if op = "$eq" then item == v
      else if op = "$ne" then item != v
      else if op = "$gt" then
        match item, v with
        | .num a, .num b => a > b
        | _, _ => false
      else if op = "$gte" then
        match item, v with
        | .num a, .num b => a ≥ b
        | _, _ => false
      else if op = "$lt" then
        match item, v with
        | .num a, .num b => a < b
        | _, _ => false
      else if op = "$lte" then
        match item, v with
        | .num a, .num b => a ≤ b
        | _, _ => false
      else if op = "$in" then
        match v with
        | .arr xs => xs.contains item
        | _ => false
      else if op = "$nin" then
        match v with
        | .arr xs => !xs.contains item
        | _ => false
      else itemMatchesOps item orig rest

/-- Top level of `item_matches`: objects go through the operator loop,
any other query value is plain equality. -/
def itemMatches (item query : Json) : Bool :=
  match query with
  | .obj qs => itemMatchesOps item qs qs
  | _ => item == query

/-- The `$set` pass of `Document::apply_update`: each (path, value)
entry is written in order; the key `id` aborts with an error, keeping
the writes already made. -/
def applySet (dc : Document) : List (String × Json) → Document × Option String
  | [] => (dc, none)
  | (k, v) :: rest =>
      if k = "id" then (dc, some "Cannot update id field")
      else applySet { dc with data := setPath dc.data (splitOnDot k) v } rest

/-- The `$unset` pass: removes named top-level fields; `id` aborts. -/
def applyUnset (dc : Document) : List (String × Json) → Document × Option String
  | [] => (dc, none)
  | (k, _) :: rest =>
      if k = "id" then (dc, some "Cannot unset id field")
      else applyUnset { dc with data := delKV dc.data k } rest

/-- The `$inc` pass: numeric add with a missing field read as 0; `id`
aborts, and a present non-numeric value or non-numeric operand aborts. -/
def applyInc (dc : Document) : List (String × Json) → Document × Option String
  | [] => (dc, none)
  | (k, v) :: rest =>
      if k = "id" then (dc, some "Cannot increment id field")
      else
        match (getKV dc.data k).getD (Json.num 0), v with
        | .num n1, .num n2 =>
            applyInc { dc with data := setKV dc.data k (.num (n1 + n2)) } rest
        | _, _ => (dc, some ("Cannot increment non-numeric field: " ++ k))

/-- The `$push` pass: appends to an array field, creates a singleton
array for a missing field; `id` or an existing non-array aborts. -/
def applyPush (dc : Document) : List (String × Json) → Document × Option String
  | [] => (dc, none)
  | (k, v) :: rest =>
      if k = "id" then (dc, some "Cannot push to id field")
      else
        match getKV dc.data k with
        | some (.arr xs) =>
            applyPush { dc with data := setKV dc.data k (.arr (xs ++ [v])) } rest
        | none =>
            applyPush { dc with data := setKV dc.data k (.arr [v]) } rest
        | some _ => (dc, some ("Cannot push to non-array field: " ++ k))

/-- The `$pull` pass: drops every element of an array field matching the
predicate; a missing or non-array field is a no-op; `id` aborts. -/
def applyPull (dc : Document) : List (String × Json) → Document × Option String
  | [] => (dc, none)
  | (k, v) :: rest =>
      if k = "id" then (dc, some "Cannot pull from id field")
      else
        match getKV dc.data k with
        | some (.arr xs) =>
            applyPull
              { dc with
                data := setKV dc.data k
                  (.arr (xs.filter (fun it => !itemMatches it v))) } rest
        | _ => applyPull dc rest

/-- Payload of one update operator: present only when the value stored
under the operator key is itself an object (`if let Some(Value::Object(o))
= update_obj.get(op)`). -/
def getOpObj (uo : List (String × Json)) (key : String) :
    Option (List (String × Json)) :=
  match getKV uo key with
  | some (.obj o) => some o
  | _ => none

/-- Chains one operator pass after the previous ones: an earlier error is
kept (the Rust code has already returned), a missing or non-object
payload is skipped. -/
def runOp (st : Document × Option String)
    (payload : Option (List (String × Json)))
    (f : Document → List (String × Json) → Document × Option String) :
    Document × Option String :=
  match st with
  | (dc, some e) => (dc, some e)
  | (dc, none) =>
      match payload with
      | some o => f dc o
      | none => (dc, none)

/-- Update-operator application (`Document::apply_update`): a non-object
spec is an error; otherwise the five recognised operators run in source
order `$set, $unset, $inc, $push, $pull`, each over its payload entries
in (sorted) order.  The returned document keeps whatever was applied
before an error, as the Rust `&mut self` does. -/
def Document.applyUpdate (dc : Document) (u : Json) : Document × Option String :=
  match u with
  | .obj uo =>
      let s1 := runOp (dc, none) (getOpObj uo "$set") applySet
      let s2 := runOp s1 (getOpObj uo "$unset") applyUnset
      let s3 := runOp s2 (getOpObj uo "$inc") applyInc
      let s4 := runOp s3 (getOpObj uo "$push") applyPush
      runOp s4 (getOpObj uo "$pull") applyPull
  | _ => (dc, some "Update must be an object")

/-- One query (`query.rs`, `struct Query`): the serde-flattened
condition map. -/
structure Query where
  conditions : List (String × Json)
deriving Repr

/-- Field-against-condition match (`Query::field_matches`), operator
loop: every operator clause present must hold; an unknown operator fails
the whole field match. -/
def opsMatch (dv : Option Json) : List (String × Json) → Bool
  | [] => true
  | (op, opv) :: rest =>
      if op = "$eq" then
        match dv with
        | some v => if v == opv then opsMatch dv rest else false
        | none => false
      else if op = "$ne" then
        match dv with
        | some v => if v == opv then false else opsMatch dv rest
        | none => opsMatch dv rest
      else if op = "$gt" then
        match dv, opv with
        | some (.num a), .num b => if a ≤ b then false else opsMatch dv rest
        | _, _ => false
      else if op = "$gte" then
        match dv, opv with
        | some (.num a), .num b => if a < b then false else opsMatch dv rest
        | _, _ => false
      else if op = "$lt" then
        match dv, opv with
        | some (.num a), .num b => if a ≥ b then false else opsMatch dv rest
        | _, _ => false
      else if op = "$lte" then
        match dv, opv with
        | some (.num a), .num b => if a > b then false else opsMatch dv rest
        | _, _ => false
      else if op = "$in" then
        match dv with
        | some v =>
            match opv with
            | .arr xs => if xs.contains v then opsMatch dv rest else false
            | _ => false
        | none => false
      else if op = "$nin" then
        match dv with
        | some v =>
            match opv with
            | .arr xs => if xs.contains v then false else opsMatch dv rest
            | _ => false
        | none => opsMatch dv rest
      else if op = "$exists" then
        match opv with
        | .bool shouldExist =>
            if shouldExist && dv.isNone then false
            else if !shouldExist && dv.isSome then false
            else opsMatch dv rest
        | _ => opsMatch dv rest
      else if op = "$regex" then
        match dv with
        | some (.str s) =>
            match opv with
            | .str pat => if strContainsSub s pat then opsMatch dv rest else false
            | _ => false
        | _ => false
      else false

/-- Field-against-condition match (`Query::field_matches`): an object
condition runs the operator loop over the document value at the field, a
plain condition requires the field to exist and equal it. -/
def fieldMatches (field : String) (condition : Json) (d : Document) : Bool :=
  let dv := d.get field
  match condition with
  | .obj ops => opsMatch dv ops
  | _ =>
      match dv with
      | some v => v == condition
      | none => false

mutual

/-- Condition loop of `Query::matches`: each (key, value) pair is
checked in order; `$and` requires every object element to match, `$or`
with a non-empty array requires some object element to match — but with
an empty array the Rust code returns `true` for the whole match at once
— and `$not` fails when its object matches.  Non-array `$and`/`$or` and
non-object `$not` payloads are skipped.  A sub-condition object is
evaluated like `Query::matches` on it (whose empty-map early return
coincides with this loop's base case). -/
def matchesConds (d : Document) : List (String × Json) → Bool
  | [] => true
  | (k, v) :: rest =>
      if k = "$and" then
        match v with
        | .arr cs => if allSubMatch d cs then matchesConds d rest else false
        | _ => matchesConds d rest
      else if k = "$or" then
        match v with
        | .arr cs =>
            if cs.isEmpty then true
            else if anySubMatch d cs then matchesConds d rest else false
        | _ => matchesConds d rest
      else if k = "$not" then
        match subMatch d v with
        | some true => false
        | some false => matchesConds d rest
        | none => matchesConds d rest
      else
        if fieldMatches k v d then matchesConds d rest else false

/-- Evaluation of one sub-condition element: an object runs the
condition loop on it (`Query { conditions } .matches`), anything else is
skipped by the Rust loops (`none`). -/
def subMatch (d : Document) : Json → Option Bool
  | .obj o => some (matchesConds d o)
  | _ => none

/-- Whether every object element of a `$and` array matches (a non-object
element is skipped by the Rust loop, hence vacuously fine). -/
def allSubMatch (d : Document) : List Json → Bool
  | [] => true
  | c :: cs =>
      match subMatch d c with
      | some false => false
      | _ => allSubMatch d cs

/-- Whether some object element of a `$or` array matches (a non-object
element never sets `matches_any`). -/
def anySubMatch (d : Document) : List Json → Bool
  | [] => false
  | c :: cs =>
      match subMatch d c with
      | some true => true
      | _ => anySubMatch d cs

end

/-- Query-against-document match (`Query::matches`): an empty condition
map matches everything, otherwise the condition loop decides. -/
def Query.matches (q : Query) (d : Document) : Bool :=
  if q.conditions.isEmpty then true else matchesConds d q.conditions

/-- Condition value recorded for a field (`Query::get_field_value`). -/
def Query.getFieldValue (q : Query) (field : String) : Option Json :=
  getKV q.conditions field

/-- Whether the query pins the field with a plain (non-object) condition
(`Query::has_simple_equality`). -/
def Query.hasSimpleEquality (q : Query) (field : String) : Bool :=
  match getKV q.conditions field with
  | some v => !v.isObject
  | none => false

/-- The `$eq` operand recorded for a field, when its condition is an
object (`Query::has_equality_operator`). -/
def Query.hasEqualityOperator (q : Query) (field : String) : Option Json :=
  match getKV q.conditions field with
  | some (.obj o) => getKV o "$eq"
  | _ => none

/-- Opening brace character as a string (JSON object text). -/
def lbrace : String := String.singleton (Char.ofNat 123)

/-- Closing brace character as a string (JSON object text). -/
def rbrace : String := String.singleton (Char.ofNat 125)

/-- The escaping of one character inside a JSON string literal, as
serde_json writes it. -/
def escapeChar (c : Char) : String :=
  if c = '"' then "\\\""
  else if c = '\\' then "\\\\"
  else if c = '\n' then "\\n"
  else if c = '\r' then "\\r"
  else if c = '\t' then "\\t"
  else if c = Char.ofNat 8 then "\\b"
  else if c = Char.ofNat 12 then "\\f"
  else if c.toNat < 32 then
    "\\u00" ++ String.mk [Nat.digitChar (c.toNat / 16), Nat.digitChar (c.toNat % 16)]
  else String.singleton c

/-- A JSON string literal with quotes and escapes. -/
def quoteStr (s : String) : String :=
  "\"" ++ String.join (s.data.map escapeChar) ++ "\""

mutual

/-- Compact JSON text of a value (`serde_json::to_string`), used only
when an array or object value serves as an index key. -/
def jsonSerialize : Json → String
  | .null => "null"
  | .bool b => toString b
  | .num n => toString n
  | .str s => quoteStr s
  | .arr xs => "[" ++ serializeArr xs ++ "]"
  | .obj kvs => lbrace ++ serializeObj kvs ++ rbrace

def serializeArr : List Json → String
  | [] => ""
  | [x] => jsonSerialize x
  | x :: xs => jsonSerialize x ++ "," ++ serializeArr xs

def serializeObj : List (String × Json) → String
  | [] => ""
  | [(k, v)] => quoteStr k ++ ":" ++ jsonSerialize v
  | (k, v) :: kvs => quoteStr k ++ ":" ++ jsonSerialize v ++ "," ++ serializeObj kvs

end

/-- Index kind (`index.rs`, `enum IndexType`). -/
inductive IndexType where
  | single
  | unique
  | multi
deriving Repr, DecidableEq

/-- Secondary index (`index.rs`, `struct Index`): name, indexed fields,
kind, and both key stores — `single_index` for Single/Unique,
`multi_index` for Multi (the unused one stays empty). -/
structure Index where
  name : String
  fields : List String
  itype : IndexType
  singleIndex : List (String × String)
  multiIndex : List (String × List String)
deriving Repr, DecidableEq

/-- Fresh index (`Index::new`). -/
def Index.new (name : String) (fields : List String) (itype : IndexType) : Index :=
  ⟨name, fields, itype, [], []⟩

/-- Canonical string of one field value (`Index::value_to_string`):
null, booleans and numbers print their literal text, strings pass
verbatim, arrays and objects use their JSON text. -/
def valueToString : Json → String
  | .null => "null"
  | .bool b => toString b
  | .num n => toString n
  | .str s => s
  | .arr xs => jsonSerialize (.arr xs)
  | .obj kvs => jsonSerialize (.obj kvs)

/-- Composite key of a document (`Index::get_index_key`): a single-field
index requires the field to be present and errors otherwise; a compound
index joins the per-field strings with `|`, encoding a missing field as
`"null"`. -/
def Index.getIndexKey (idx : Index) (d : Document) : Except String String :=
  match idx.fields with
  | [f] =>
      match d.get f with
      | some v => .ok (valueToString v)
      | none => .error ("Field '" ++ f ++ "' not found in document")
  | fs =>
      .ok (String.intercalate "|"
        (fs.map (fun f =>
          match d.get f with
          | some v => valueToString v
          | none => "null")))

/-- Incremental insert (`Index::add_document`): Single/Unique store the
id under the key, a Unique index rejecting a key already claimed by a
distinct id; Multi adds the id to the key's set. -/
def Index.addDocument (idx : Index) (d : Document) : Except String Index :=
  match idx.getIndexKey d with
  | .error e => .error e
  | .ok key =>
      match idx.itype with
      | .single | .unique =>
          match getKV idx.singleIndex key with
          | some existingId =>
              if idx.itype = .unique ∧ existingId ≠ d.id then
                .error ("Duplicate key '" ++ key ++ "' for unique index '"
                  ++ idx.name ++ "'")
              else
                .ok { idx with singleIndex := setKV idx.singleIndex key d.id }
          | none => .ok { idx with singleIndex := setKV idx.singleIndex key d.id }
      | .multi =>
          let entry := (getKV idx.multiIndex key).getD []
          .ok { idx with
            multiIndex := setKV idx.multiIndex key (insertSet entry d.id) }

/-- Incremental removal (`Index::remove_document`): Single/Unique drop
the key only when it records this document's id; Multi removes the id
from the key's set and prunes the key when the set becomes empty. -/
def Index.removeDocument (idx : Index) (d : Document) : Except String Index :=
  match idx.getIndexKey d with
  | .error e => .error e
  | .ok key =>
      match idx.itype with
      | .single | .unique =>
          match getKV idx.singleIndex key with
          | some id =>
              if id = d.id then
                .ok { idx with singleIndex := delKV idx.singleIndex key }
              else .ok idx
          | none => .ok idx
      | .multi =>
          match getKV idx.multiIndex key with
          | some ids =>
              let ids' := removeSet ids d.id
              if ids'.isEmpty then
                .ok { idx with multiIndex := delKV idx.multiIndex key }
              else
                .ok { idx with multiIndex := setKV idx.multiIndex key ids' }
          | none => .ok idx

/-- Bulk reset (`Index::clear`). -/
def Index.clear (idx : Index) : Index :=
  { idx with singleIndex := [], multiIndex := [] }

/-- Planner probe (`Index::can_use_for_query`): the first indexed field
the query pins by plain equality or a `$eq` operator. -/
def Index.canUseForQuery (idx : Index) (q : Query) : Option String :=
  idx.fields.findSome? (fun f =>
    if q.hasSimpleEquality f || (q.hasEqualityOperator f).isSome then some f
    else none)

/-- Pinned value of the first usable indexed field, as resolved at the
top of `Index::query`. -/
def Index.pinnedValue (idx : Index) (q : Query) : Option Json :=
  idx.fields.findSome? (fun f =>
    if q.hasSimpleEquality f then q.getFieldValue f
    else q.hasEqualityOperator f)

/-- Index-accelerated lookup (`Index::query`): resolves the pinned
field's value to a key, reads the candidate id(s) — but then pushes a
placeholder `Document::new()` (a freshly generated id and no fields) per
candidate instead of fetching the document bodies — and re-filters the
placeholders with the full query.  `g n` is the id generated for the
`n`-th placeholder. -/
def Index.queryDocs (idx : Index) (q : Query) (g : Nat → String) : List Document :=
  let results : List Document :=
    match idx.pinnedValue q with
    | none => []
    | some v =>
        let key := valueToString v
        match idx.itype with
        | .single | .unique =>
            match getKV idx.singleIndex key with
            | some _docId => [⟨g 0, []⟩]
            | none => []
        | .multi =>
            match getKV idx.multiIndex key with
            | some docIds => (List.range docIds.length).map (fun n => ⟨g n, []⟩)
            | none => []
  results.filter (fun doc => q.matches doc)

/-- First index-accelerated result (`Index::query_one`). -/
def Index.queryOne (idx : Index) (q : Query) (g : Nat → String) : Option Document :=
  (idx.queryDocs q g).head?

/-- One collection (`lib.rs`, `struct Collection`): an ordered document
list and the name-to-index map. -/
structure Collection where
  name : String
  documents : List Document
  indexes : List (String × Index)
deriving Repr

/-- Fresh collection (`Collection::new`). -/
def Collection.new (name : String) : Collection :=
  ⟨name, [], []⟩

/-- The `for (name, index) in &mut self.indexes { index.add_document(doc)? }`
loop: indexes before the first failure keep their new entry, the loop
stops at the first error via `?`, and later indexes stay untouched. -/
def addDocAllIndexes : List (String × Index) → Document →
    List (String × Index) × Option String
  | [], _ => ([], none)
  | (n, i) :: rest, d =>
      match i.addDocument d with
      | .error e =>
          ((n, i) :: rest, some ("Failed to update index " ++ n ++ ": " ++ e))
      | .ok i' =>
          let (rest', err) := addDocAllIndexes rest d
          ((n, i') :: rest', err)

/-- The matching removal loop over every index, same failure shape. -/
def removeDocAllIndexes : List (String × Index) → Document →
    List (String × Index) × Option String
  | [], _ => ([], none)
  | (n, i) :: rest, d =>
      match i.removeDocument d with
      | .error e =>
          ((n, i) :: rest, some ("Failed to update index " ++ n ++ ": " ++ e))
      | .ok i' =>
          let (rest', err) := removeDocAllIndexes rest d
          ((n, i') :: rest', err)

/-- Insert (`Collection::insert`), after a successful parse of the
document: a missing id is filled with the freshly generated `gen`, an id
collision is an error, then every index is updated — an index failure
reports the error with the indexes updated so far left as they are and
the document not appended — and finally the document is appended. -/
def Collection.insert (c : Collection) (doc0 : Document) (gen : String) :
    Collection × Except String String :=
  let doc := if !doc0.hasId then { doc0 with id := gen } else doc0
  let id := doc.id
  if c.documents.any (fun d => d.id = id) then
    (c, .error ("Document with ID " ++ id ++ " already exists"))
  else
    match addDocAllIndexes c.indexes doc with
    | (idxs', some e) => ({ c with indexes := idxs' }, .error e)
    | (idxs', none) =>
        ({ c with indexes := idxs', documents := c.documents ++ [doc] }, .ok id)

/-- Planner walk (`Collection::find_usable_index`): the first index that
reports a usable field; the index itself is carried along, standing for
the `self.indexes[index_name]` lookup that follows in `find`. -/
def findUsable : List (String × Index) → Query → Option (String × Index × String)
  | [], _ => none
  | (n, i) :: rest, q =>
      match i.canUseForQuery q with
      | some f => some (n, i, f)
      | none => findUsable rest q

/-- Query execution (`Collection::find`), after a successful query
parse: the first usable index answers through `Index::query`, otherwise
a full scan filters every document with `Query::matches`. -/
def Collection.findDocs (c : Collection) (q : Query) (g : Nat → String) :
    List Document :=
  match findUsable c.indexes q with
  | some (_, i, _) => i.queryDocs q g
  | none => c.documents.filter (fun d => q.matches d)

/-- Single-result query (`Collection::find_one`): `Index::query_one` on
the index path, first matching document on the scan path. -/
def Collection.findOneDoc (c : Collection) (q : Query) (g : Nat → String) :
    Option Document :=
  match findUsable c.indexes q with
  | some (_, i, _) => i.queryOne q g
  | none => c.documents.find? (fun d => q.matches d)

/-- Per-matched-document body of `Collection::update`: remove the
document from every index, apply the update spec in place, re-add to
every index; the first error from any of the three steps stops the
whole loop through `?`, keeping every mutation made so far (in
particular a document whose update failed has been removed from the
indexes and is not re-added, and later matched documents are not
processed). -/
def updateLoop (u : Json) :
    List Document → List (String × Index) → List Nat → Nat →
    List Document × List (String × Index) × Except String Nat
  | docs, idxs, [], count => (docs, idxs, .ok count)
  | docs, idxs, i :: rest, count =>
      let d := docs.getD i ⟨"", []⟩
      match removeDocAllIndexes idxs d with
      | (idxs', some e) => (docs, idxs', .error e)
      | (idxs', none) =>
          let (d', errU) := d.applyUpdate u
          let docs' := docs.set i d'
          match errU with
          | some e => (docs', idxs', .error ("Failed to apply update: " ++ e))
          | none =>
              match addDocAllIndexes idxs' d' with
              | (idxs'', some e) => (docs', idxs'', .error e)
              | (idxs'', none) => updateLoop u docs' idxs'' rest (count + 1)

/-- Positions of the documents matching a query, in collection order
(the `enumerate/filter/map` of `update` and `delete`). -/
def matchedPositions (docs : List Document) (q : Query) : List Nat :=
  (List.range docs.length).filter (fun i =>
    match docs.get? i with
    | some d => q.matches d
    | none => false)

/-- Update (`Collection::update`), after successful parses: all
currently matching positions are collected first, then processed in
order by `updateLoop`. -/
def Collection.update (c : Collection) (q : Query) (u : Json) :
    Collection × Except String Nat :=
  let (docs', idxs', r) :=
    updateLoop u c.documents c.indexes (matchedPositions c.documents q) 0
  ({ c with documents := docs', indexes := idxs' }, r)

/-- Per-matched-document body of `Collection::delete`, walking positions
in descending order: remove from every index (an error stops the loop
through `?`, keeping prior mutations), then remove the document. -/
def deleteLoop :
    List Document → List (String × Index) → List Nat → Nat →
    List Document × List (String × Index) × Except String Nat
  | docs, idxs, [], count => (docs, idxs, .ok count)
  | docs, idxs, i :: rest, count =>
      let d := docs.getD i ⟨"", []⟩
      match removeDocAllIndexes idxs d with
      | (idxs', some e) => (docs, idxs', .error e)
      | (idxs', none) => deleteLoop (docs.eraseIdx i) idxs' rest (count + 1)

/-- Delete (`Collection::delete`), after a successful query parse:
matching positions are collected, then deleted in reverse order. -/
def Collection.delete (c : Collection) (q : Query) :
    Collection × Except String Nat :=
  let (docs', idxs', r) :=
    deleteLoop c.documents c.indexes (matchedPositions c.documents q).reverse 0
  ({ c with documents := docs', indexes := idxs' }, r)

/-- Backfill of a new or reloaded index over existing documents (the
`for doc in &self.documents { index.add_document(doc)? }` loop of
`create_index`). -/
def backfill (idx : Index) : List Document → Except String Index
  | [] => .ok idx
  | d :: rest =>
      match idx.addDocument d with
      | .error e => .error ("Failed to add document to index: " ++ e)
      | .ok i' => backfill i' rest

/-- Index creation (`Collection::create_index`), after a successful
fields parse: an unknown kind string is an error; the fresh index is
backfilled from all current documents, a backfill failure leaving the
collection unchanged (the index was never installed); success installs
it, replacing any index of the same name. -/
def Collection.createIndex (c : Collection) (name : String)
    (fields : List String) (itypeStr : String) : Collection × Except String Unit :=
  let itype? : Option IndexType :=
    if itypeStr = "single" then some .single
    else if itypeStr = "unique" then some .unique
    else if itypeStr = "multi" then some .multi
    else none
  match itype? with
  | none => (c, .error ("Invalid index type: " ++ itypeStr))
  | some itype =>
      match backfill (Index.new name fields itype) c.documents with
      | .error e => (c, .error e)
      | .ok idx => ({ c with indexes := setKV c.indexes name idx }, .ok ())

/-- Index removal (`Collection::drop_index`): reports whether one
existed. -/
def Collection.dropIndex (c : Collection) (name : String) : Collection × Bool :=
  ({ c with indexes := delKV c.indexes name }, (getKV c.indexes name).isSome)

/-- Serialisation (`Collection::to_json`) at the abstract level: the
document list itself (the text encoding is the excluded boundary). -/
def Collection.toJson (c : Collection) : List Document :=
  c.documents

/-- Document-by-document rebuild loop of `from_json`: each supplied
document is appended and then added to every index; an index failure
stops the loop through `?`, keeping the documents pushed so far and the
partial index state. -/
def fromJsonLoop :
    List Document → List Document → List (String × Index) →
    List Document × List (String × Index) × Except String Unit
  | [], acc, idxs => (acc, idxs, .ok ())
  | d :: rest, acc, idxs =>
      let acc' := acc ++ [d]
      match addDocAllIndexes idxs d with
      | (idxs', some e) => (acc', idxs', .error e)
      | (idxs', none) => fromJsonLoop rest acc' idxs'

/-- Full reload (`Collection::from_json`), after a successful parse of
the supplied document list: all documents and all index contents are
cleared, then every supplied document is appended and indexed in
sequence order. -/
def Collection.fromJson (c : Collection) (docs : List Document) :
    Collection × Except String Unit :=
  let idxs0 := c.indexes.map (fun p => (p.1, p.2.clear))
  let (docs', idxs', r) := fromJsonLoop docs [] idxs0
  ({ c with documents := docs', indexes := idxs' }, r)

/-! ### Concrete states used as evidence

Each group below is reachable through the public operations: `exC1`
results from two `create_index`/`insert` steps, `exC2` from
`create_index` twice then one `insert`, `exC3` from `create_index` and
two `insert`s, and `exC9` is the index state `insert` leaves behind in
the `exC2` scenario (an entry for a document that was never appended). -/

def exD1 : Document := ⟨"1", [("a", .num 1)]⟩

def exI1 : Index := ⟨"idx", ["a"], .unique, [("1", "1")], []⟩

def exC1 : Collection := ⟨"c", [exD1], [("idx", exI1)]⟩

def exQ1 : Query := ⟨[("a", .num 1)]⟩

/-- C1: the claim says the index path of `find`/`find_one` returns the
same documents as the full scan whenever an index is usable.  The code
of `Index::query` instead pushes placeholder `Document::new()` values
(fresh id, no fields) and filters those, so on a one-document collection
with a usable unique index on `a` and the query `{a: 1}` the index path
returns nothing — for every generated placeholder id — while the scan
path returns the document; `find_one` likewise disagrees on whether a
document is found.  This is the divergence the spec itself flags as a
bug (design note on fetching documents by id), hence a code bug, not an
amended claim. -/
theorem C1_index_path_diverges :
    ∀ g : Nat → String,
      Collection.findDocs exC1 exQ1 g = [] ∧
      exC1.documents.filter (fun d => exQ1.matches d) = [exD1] ∧
      Collection.findOneDoc exC1 exQ1 g = none ∧
      exC1.documents.find? (fun d => exQ1.matches d) = some exD1 :=
  fun _ => ⟨rfl, rfl, rfl, rfl⟩

def exD2a : Document := ⟨"1", [("a", .num 1), ("b", .num 1)]⟩

def exD2b : Document := ⟨"2", [("a", .num 2), ("b", .num 1)]⟩

def exM2 : Index := ⟨"m", ["a"], .multi, [], [("1", ["1"])]⟩

def exU2 : Index := ⟨"u", ["b"], .unique, [("1", "1")], []⟩

def exC2 : Collection := ⟨"c", [exD2a], [("m", exM2), ("u", exU2)]⟩

/-- C2: the claim says a failed insert (Unique violation) leaves the
document list and every index — including indexes updated earlier in the
loop — exactly as before.  The code rolls nothing back: inserting a
document whose `b` key collides on the unique index `u` fails, the
document list is indeed unchanged, but the multi index `m`, updated
before `u` in the loop, keeps the new entry `"2" ↦ {"2"}` for the
document that was never appended.  The spec demands rollback in three
places, so this is a code bug. -/
theorem C2_insert_leaves_partial_index_state :
    ∀ gen : String,
      (exC2.insert exD2b gen).2 =
        .error "Failed to update index u: Duplicate key '1' for unique index 'u'" ∧
      (exC2.insert exD2b gen).1.documents = [exD2a] ∧
      getKV ((exC2.insert exD2b gen).1.indexes) "m" =
        some ⟨"m", ["a"], .multi, [], [("1", ["1"]), ("2", ["2"])]⟩ ∧
      getKV (exC2.indexes) "m" = some ⟨"m", ["a"], .multi, [], [("1", ["1"])]⟩ :=
  fun _ => ⟨rfl, rfl, rfl, rfl⟩

def exD3a : Document := ⟨"1", [("a", .num 1), ("b", .num 3)]⟩

def exD3b : Document := ⟨"2", [("a", .num 1)]⟩

def exM3 : Index := ⟨"m", ["a"], .multi, [], [("1", ["1", "2"])]⟩

def exC3 : Collection := ⟨"c", [exD3a, exD3b], [("m", exM3)]⟩

def exQ3 : Query := ⟨[("a", .num 1)]⟩

def exU3 : Json := .obj [("$push", .obj [("b", .bool true)])]

/-- C3: the claim says that when `apply_update` fails on one matched
document, that document is reinserted into every index under its
pre-failure values and the remaining matched documents are still
processed.  The code instead propagates the error immediately: both
documents match `{a: 1}`, `$push` onto the non-array field `b` of the
first one fails, and `update` returns the error with the first document
removed from the multi index and never re-added (its entry shrinks to
`"1" ↦ {"2"}`), the second matched document never processed (count never
reaches it).  The spec states reinsert-and-continue and an
index-consistency invariant, so this is a code bug. -/
theorem C3_update_abandons_failed_document :
    (exC3.update exQ3 exU3).2 =
      .error "Failed to apply update: Cannot push to non-array field: b" ∧
    (exC3.update exQ3 exU3).1.documents = [exD3a, exD3b] ∧
    (exC3.update exQ3 exU3).1.indexes =
      [("m", ⟨"m", ["a"], .multi, [], [("1", ["2"])]⟩)] :=
  ⟨rfl, rfl, rfl⟩

/-- C5: the claim says `Query::matches` is the conjunction of its
(key, value) pairs, an empty `$or` array being only a vacuously true
conjunct.  In the code an empty `$or` array executes `return true` for
the whole match, discharging the remaining pairs: the query with pairs
`$or: []` and `a: 5` (in that iteration order) matches a document whose
`a` is 1, although the pair `a: 5` alone does not hold of it.  The spec
states per-pair conjunction semantics, and the code's result even
depends on hash-map iteration order, so this is a code bug. -/
theorem C5_empty_or_discharges_remaining_pairs :
    Query.matches ⟨[("$or", .arr []), ("a", .num 5)]⟩ ⟨"1", [("a", .num 1)]⟩ = true ∧
    Query.matches ⟨[("a", .num 5)]⟩ ⟨"1", [("a", .num 1)]⟩ = false ∧
    fieldMatches "a" (.num 5) ⟨"1", [("a", .num 1)]⟩ = false :=
  ⟨rfl, rfl, rfl⟩

/-- C4 counterexample: the claim says a spec targeting `id` causes an
error with no mutation at all, including from other entries of the same
spec.  With the payload `{a: 1, id: 2}` under `$set` (entries in
serde's sorted order), the call errors but the entry `a` — processed
before `id` — has already been written: the document's fields change
from `[]` to `[a ↦ 1]`. -/
theorem C4_counterexample :
    Document.applyUpdate ⟨"1", []⟩
        (.obj [("$set", .obj [("a", .num 1), ("id", .num 2)])]) =
      (⟨"1", [("a", .num 1)]⟩, some "Cannot update id field") :=
  rfl

/-- C6 counterexample: the claim says key computation succeeds for every
index, a missing field encoding as `"null"`.  For a single-field index
the code errors instead when the field is absent, and `add_document` /
`remove_document` propagate that error. -/
theorem C6_counterexample :
    Index.getIndexKey ⟨"idx6", ["a"], .single, [], []⟩ ⟨"1", []⟩ =
      .error "Field 'a' not found in document" ∧
    Index.addDocument ⟨"idx6", ["a"], .single, [], []⟩ ⟨"1", []⟩ =
      .error "Field 'a' not found in document" ∧
    Index.removeDocument ⟨"idx6", ["a"], .single, [], []⟩ ⟨"1", []⟩ =
      .error "Field 'a' not found in document" :=
  ⟨rfl, rfl, rfl⟩

/-- C7 counterexample: the claim says every public operation, including
`from_json`, leaves the document ids pairwise distinct for every input.
`from_json` performs no duplicate check: reloading the two-element list
whose documents both carry id `"1"` succeeds and leaves both in the
collection. -/
theorem C7_counterexample :
    (Collection.fromJson ⟨"c", [], []⟩ [⟨"1", []⟩, ⟨"1", []⟩]).1.documents.map
        (fun d => d.id) = ["1", "1"] ∧
    (Collection.fromJson ⟨"c", [], []⟩ [⟨"1", []⟩, ⟨"1", []⟩]).2 = .ok () ∧
    ¬ (["1", "1"] : List String).Nodup :=
  ⟨rfl, rfl, by decide⟩

def exC9 : Collection :=
  ⟨"c", [], [("m", ⟨"m", ["a"], .multi, [], [("x", ["1"])]⟩)]⟩

/-- C9 counterexample: the claim quantifies over every collection on
which `to_json` succeeds.  `to_json` serialises only the documents, so
for a collection whose multi index holds an entry with no backing
document — a state reachable through the failed insert of C2 —
`from_json (to_json C)` succeeds but rebuilds the index empty, losing
the key→id association `"x" ↦ {"1"}` the original held. -/
theorem C9_counterexample :
    (exC9.fromJson exC9.toJson).2 = .ok () ∧
    getKV ((exC9.fromJson exC9.toJson).1.indexes) "m" =
      some ⟨"m", ["a"], .multi, [], []⟩ ∧
    getKV exC9.indexes "m" = some ⟨"m", ["a"], .multi, [], [("x", ["1"])]⟩ :=
  ⟨rfl, rfl, rfl⟩

/-! ### Map lemmas -/

theorem getKV_delKV_self {α : Type} (m : List (String × α)) (k : String) :
    getKV (delKV m k) k = none := by
  induction m with
  | nil => rfl
  | cons p rest ih =>
      obtain ⟨k', v⟩ := p
      by_cases h : k' = k
      · simp [delKV, h, ih]
      · simp [delKV, getKV, h, ih]

theorem getKV_delKV_ne {α : Type} (m : List (String × α)) (k k' : String)
    (h : k' ≠ k) : getKV (delKV m k) k' = getKV m k' := by
  induction m with
  | nil => rfl
  | cons p rest ih =>
      obtain ⟨a, v⟩ := p
      by_cases ha : a = k
      · subst ha
        simp [delKV, getKV, Ne.symm h, ih]
      · simp only [delKV, if_neg ha, getKV]
        by_cases ha' : a = k' <;> simp [ha', ih]

theorem getKV_setKV_self {α : Type} (m : List (String × α)) (k : String) (v : α) :
    getKV (setKV m k v) k = some v := by
  induction m with
  | nil => simp [setKV, getKV]
  | cons p rest ih =>
      obtain ⟨a, w⟩ := p
      by_cases ha : a = k
      · simp [setKV, getKV, ha]
      · simp [setKV, getKV, ha, ih]

theorem getKV_setKV_ne {α : Type} (m : List (String × α)) (k : String) (v : α)
    (k' : String) (h : k' ≠ k) : getKV (setKV m k v) k' = getKV m k' := by
  induction m with
  | nil => simp [setKV, getKV, Ne.symm h]
  | cons p rest ih =>
      obtain ⟨a, w⟩ := p
      by_cases ha : a = k
      · subst ha
        simp [setKV, getKV, Ne.symm h]
      · simp [setKV, getKV, ha, ih]

/-! ### C10: unrecognised operator payloads are skipped -/

/-- The five operator keys `apply_update` recognises, in source order. -/
def recognizedOps : List String := ["$set", "$unset", "$inc", "$push", "$pull"]

/-- Whether one operator's payload is an object containing the key
`id`. -/
def opTargetsId (uo : List (String × Json)) (op : String) : Bool :=
  match getOpObj uo op with
  | some o => (getKV o "id").isSome
  | none => false

/-- Whether some recognised operator's payload targets `id`. -/
def targetsId (uo : List (String × Json)) : Bool :=
  recognizedOps.any (opTargetsId uo)

theorem applyUpdate_congr_of_getOpObj_eq (dc : Document)
    (uo uo' : List (String × Json))
    (h : ∀ k, getOpObj uo k = getOpObj uo' k) :
    dc.applyUpdate (.obj uo) = dc.applyUpdate (.obj uo') := by
  simp only [Document.applyUpdate, h]

/-- C10: in `apply_update`, a recognised operator key whose stored value
is not itself an object is silently skipped — the call behaves exactly
as if that key were absent, with no error and no mutation from it — and
consequently an object spec in which no recognised operator key holds an
object payload returns success with the document unchanged. -/
theorem C10_nonobject_payloads_skipped :
    ∀ (dc : Document) (uo : List (String × Json)),
      (∀ op, op ∈ recognizedOps → ∀ v, getKV uo op = some v →
        v.isObject = false →
        dc.applyUpdate (.obj uo) = dc.applyUpdate (.obj (delKV uo op))) ∧
      ((recognizedOps.all fun op => (getOpObj uo op).isNone) = true →
        dc.applyUpdate (.obj uo) = (dc, none)) := by
  intro dc uo
  constructor
  · intro op _ v hv hvo
    apply applyUpdate_congr_of_getOpObj_eq
    intro k
    by_cases hk : k = op
    · subst hk
      have h1 : getOpObj uo k = none := by
        cases v <;> simp_all [getOpObj, Json.isObject]
      have h2 : getOpObj (delKV uo k) k = none := by
        simp [getOpObj, getKV_delKV_self]
      rw [h1, h2]
    · simp [getOpObj, getKV_delKV_ne uo op k hk]
  · intro h
    simp only [recognizedOps, List.all_cons, List.all_nil, Bool.and_true,
      Bool.and_eq_true, Option.isNone_iff_eq_none] at h
    obtain ⟨h1, h2, h3, h4, h5⟩ := h
    simp [Document.applyUpdate, h1, h2, h3, h4, h5, runOp]

/-- Witness for C10 at a concrete spec whose `$set` value is a number
and whose only other key is unrecognised. -/
theorem C10_witness :
    Document.applyUpdate ⟨"w10", [("x", .num 0)]⟩
        (.obj [("$set", .num 1), ("other", .obj [])]) =
      (⟨"w10", [("x", .num 0)]⟩, none) :=
  (C10_nonobject_payloads_skipped ⟨"w10", [("x", .num 0)]⟩
    [("$set", .num 1), ("other", .obj [])]).2 (by decide)

/-! ### C4: update specs targeting `id` -/

theorem applySet_id (o : List (String × Json)) (dc : Document) :
    (applySet dc o).1.id = dc.id := by
  induction o generalizing dc with
  | nil => rfl
  | cons p rest ih =>
      obtain ⟨k, v⟩ := p
      by_cases hk : k = "id" <;> simp [applySet, hk, ih]

theorem applyUnset_id (o : List (String × Json)) (dc : Document) :
    (applyUnset dc o).1.id = dc.id := by
  induction o generalizing dc with
  | nil => rfl
  | cons p rest ih =>
      obtain ⟨k, v⟩ := p
      by_cases hk : k = "id" <;> simp [applyUnset, hk, ih]

theorem applyInc_id (o : List (String × Json)) (dc : Document) :
    (applyInc dc o).1.id = dc.id := by
  induction o generalizing dc with
  | nil => rfl
  | cons p rest ih =>
      obtain ⟨k, v⟩ := p
      by_cases hk : k = "id"
      · simp [applyInc, hk]
      · simp only [applyInc, if_neg hk]
        cases h1 : (getKV dc.data k).getD (Json.num 0) <;> cases v <;>
          simp [ih]

theorem applyPush_id (o : List (String × Json)) (dc : Document) :
    (applyPush dc o).1.id = dc.id := by
  induction o generalizing dc with
  | nil => rfl
  | cons p rest ih =>
      obtain ⟨k, v⟩ := p
      by_cases hk : k = "id"
      · simp [applyPush, hk]
      · simp only [applyPush, if_neg hk]
        cases h1 : getKV dc.data k with
        | none => simp [ih]
        | some w => cases w <;> simp [ih]

theorem applyPull_id (o : List (String × Json)) (dc : Document) :
    (applyPull dc o).1.id = dc.id := by
  induction o generalizing dc with
  | nil => rfl
  | cons p rest ih =>
      obtain ⟨k, v⟩ := p
      by_cases hk : k = "id"
      · simp [applyPull, hk]
      · simp only [applyPull, if_neg hk]
        cases h1 : getKV dc.data k with
        | none => simp [ih]
        | some w => cases w <;> simp [ih]

theorem runOp_id (st : Document × Option String)
    (p : Option (List (String × Json)))
    (f : Document → List (String × Json) → Document × Option String)
    (hf : ∀ o dc, (f dc o).1.id = dc.id) :
    (runOp st p f).1.id = st.1.id := by
  obtain ⟨dc, e⟩ := st
  cases e with
  | some e => rfl
  | none => cases p with
    | none => rfl
    | some o => exact hf o dc

/-- Whatever the update spec, `apply_update` never changes the id. -/
theorem applyUpdate_id (dc : Document) (u : Json) :
    (dc.applyUpdate u).1.id = dc.id := by
  cases u with
  | obj uo =>
      simp only [Document.applyUpdate]
      rw [runOp_id _ _ _ applyPull_id, runOp_id _ _ _ applyPush_id,
        runOp_id _ _ _ applyInc_id, runOp_id _ _ _ applyUnset_id,
        runOp_id _ _ _ applySet_id]
  | null => rfl
  | bool b => rfl
  | num n => rfl
  | str s => rfl
  | arr xs => rfl

theorem applySet_err (o : List (String × Json)) (dc : Document)
    (h : (getKV o "id").isSome = true) : (applySet dc o).2.isSome = true := by
  induction o generalizing dc with
  | nil => simp [getKV] at h
  | cons p rest ih =>
      obtain ⟨k, v⟩ := p
      by_cases hk : k = "id"
      · simp [applySet, hk]
      · simp only [getKV, if_neg hk] at h
        simp [applySet, hk, ih _ h]

theorem applyUnset_err (o : List (String × Json)) (dc : Document)
    (h : (getKV o "id").isSome = true) : (applyUnset dc o).2.isSome = true := by
  induction o generalizing dc with
  | nil => simp [getKV] at h
  | cons p rest ih =>
      obtain ⟨k, v⟩ := p
      by_cases hk : k = "id"
      · simp [applyUnset, hk]
      · simp only [getKV, if_neg hk] at h
        simp [applyUnset, hk, ih _ h]

theorem applyInc_err (o : List (String × Json)) (dc : Document)
    (h : (getKV o "id").isSome = true) : (applyInc dc o).2.isSome = true := by
  induction o generalizing dc with
  | nil => simp [getKV] at h
  | cons p rest ih =>
      obtain ⟨k, v⟩ := p
      by_cases hk : k = "id"
      · simp [applyInc, hk]
      · simp only [getKV, if_neg hk] at h
        simp only [applyInc, if_neg hk]
        cases h1 : (getKV dc.data k).getD (Json.num 0) <;> cases v <;>
          simp [ih _ h]

theorem applyPush_err (o : List (String × Json)) (dc : Document)
    (h : (getKV o "id").isSome = true) : (applyPush dc o).2.isSome = true := by
  induction o generalizing dc with
  | nil => simp [getKV] at h
  | cons p rest ih =>
      obtain ⟨k, v⟩ := p
      by_cases hk : k = "id"
      · simp [applyPush, hk]
      · simp only [getKV, if_neg hk] at h
        simp only [applyPush, if_neg hk]
        cases h1 : getKV dc.data k with
        | none => simp [ih _ h]
        | some w => cases w <;> simp [ih _ h]

theorem applyPull_err (o : List (String × Json)) (dc : Document)
    (h : (getKV o "id").isSome = true) : (applyPull dc o).2.isSome = true := by
  induction o generalizing dc with
  | nil => simp [getKV] at h
  | cons p rest ih =>
      obtain ⟨k, v⟩ := p
      by_cases hk : k = "id"
      · simp [applyPull, hk]
      · simp only [getKV, if_neg hk] at h
        simp only [applyPull, if_neg hk]
        cases h1 : getKV dc.data k with
        | none => simp [ih _ h]
        | some w => cases w <;> simp [ih _ h]

theorem runOp_err_mono (st : Document × Option String)
    (p : Option (List (String × Json)))
    (f : Document → List (String × Json) → Document × Option String)
    (h : st.2.isSome = true) : (runOp st p f).2.isSome = true := by
  obtain ⟨dc, e⟩ := st
  cases e with
  | some e => rfl
  | none => simp at h

theorem runOp_err_of_payload (st : Document × Option String)
    (o : List (String × Json))
    (f : Document → List (String × Json) → Document × Option String)
    (hf : ∀ dc, (f dc o).2.isSome = true) :
    (runOp st (some o) f).2.isSome = true := by
  obtain ⟨dc, e⟩ := st
  cases e with
  | some e => rfl
  | none => exact hf dc

/-- C4 amended: an update spec in which any of the five recognised
operators carries an object payload containing the key `id` makes
`apply_update` return an error, and the document's id is unchanged; but
— unlike the original claim — entries of the same spec processed before
the `id`-targeting entry remain applied (see the counterexample). -/
theorem C4_amended :
    ∀ (dc : Document) (uo : List (String × Json)), targetsId uo = true →
      (dc.applyUpdate (.obj uo)).2.isSome = true ∧
      (dc.applyUpdate (.obj uo)).1.id = dc.id := by
  intro dc uo h
  refine ⟨?_, applyUpdate_id dc (.obj uo)⟩
  simp only [targetsId, recognizedOps, List.any_cons, List.any_nil,
    Bool.or_false, Bool.or_eq_true] at h
  simp only [Document.applyUpdate]
  have stepId : ∀ (op : String)
      (f : Document → List (String × Json) → Document × Option String),
      (∀ o dcx, (getKV o "id").isSome = true → (f dcx o).2.isSome = true) →
      opTargetsId uo op = true →
      ∀ st : Document × Option String,
        (runOp st (getOpObj uo op) f).2.isSome = true := by
    intro op f hf hop st
    unfold opTargetsId at hop
    cases hg : getOpObj uo op with
    | none => rw [hg] at hop; simp at hop
    | some o =>
        rw [hg] at hop
        exact runOp_err_of_payload st o f (fun dcx => hf o dcx hop)
  rcases h with h | h | h | h | h
  · refine runOp_err_mono _ _ _ (runOp_err_mono _ _ _
      (runOp_err_mono _ _ _ (runOp_err_mono _ _ _ ?_)))
    exact stepId "$set" applySet (fun o dcx => applySet_err o dcx) h _
  · refine runOp_err_mono _ _ _ (runOp_err_mono _ _ _
      (runOp_err_mono _ _ _ ?_))
    exact stepId "$unset" applyUnset (fun o dcx => applyUnset_err o dcx) h _
  · refine runOp_err_mono _ _ _ (runOp_err_mono _ _ _ ?_)
    exact stepId "$inc" applyInc (fun o dcx => applyInc_err o dcx) h _
  · refine runOp_err_mono _ _ _ ?_
    exact stepId "$push" applyPush (fun o dcx => applyPush_err o dcx) h _
  · exact stepId "$pull" applyPull (fun o dcx => applyPull_err o dcx) h _

/-- Witness for C4 at a concrete `$unset` payload containing `id`. -/
theorem C4_witness :
    (Document.applyUpdate ⟨"w4", []⟩
        (.obj [("$unset", .obj [("id", .null)])])).2.isSome = true ∧
    (Document.applyUpdate ⟨"w4", []⟩
        (.obj [("$unset", .obj [("id", .null)])])).1.id = "w4" :=
  C4_amended ⟨"w4", []⟩ [("$unset", .obj [("id", .null)])] (by decide)

/-! ### C6: composite keys and missing fields -/

/-- C6 amended: only for a compound (non-single-field) index does key
computation always succeed with missing fields encoded as `"null"`; a
single-field index whose field is absent makes `get_index_key` — and
hence `add_document` and `remove_document` — fail with an error. -/
theorem C6_amended :
    ∀ (idx : Index) (d : Document),
      (idx.fields.length ≠ 1 →
        idx.getIndexKey d = .ok (String.intercalate "|"
          (idx.fields.map (fun f =>
            match d.get f with
            | some v => valueToString v
            | none => "null")))) ∧
      (∀ f, idx.fields = [f] → d.get f = none →
        idx.getIndexKey d = .error ("Field '" ++ f ++ "' not found in document") ∧
        idx.addDocument d = .error ("Field '" ++ f ++ "' not found in document") ∧
        idx.removeDocument d =
          .error ("Field '" ++ f ++ "' not found in document")) := by
  intro idx d
  constructor
  · intro hlen
    match hfs : idx.fields with
    | [] => simp [Index.getIndexKey, hfs]
    | [f] => rw [hfs] at hlen; simp at hlen
    | f :: f2 :: rest => simp [Index.getIndexKey, hfs]
  · intro f hfs hget
    have hkey : idx.getIndexKey d =
        .error ("Field '" ++ f ++ "' not found in document") := by
      simp [Index.getIndexKey, hfs, hget]
    refine ⟨hkey, ?_, ?_⟩
    · simp [Index.addDocument, hkey]
    · simp [Index.removeDocument, hkey]

/-- Witness for C6: a compound index encodes the absent field `b` as
`"null"`, a single-field index on the absent field `b` errors. -/
theorem C6_witness :
    Index.getIndexKey ⟨"w6", ["a", "b"], .multi, [], []⟩
        ⟨"x", [("a", .num 1)]⟩ = .ok "1|null" ∧
    Index.getIndexKey ⟨"w6s", ["b"], .single, [], []⟩
        ⟨"x", [("a", .num 1)]⟩ = .error "Field 'b' not found in document" := by
  constructor
  · have h := (C6_amended ⟨"w6", ["a", "b"], .multi, [], []⟩
      ⟨"x", [("a", .num 1)]⟩).1 (by decide)
    rw [h]; rfl
  · exact ((C6_amended ⟨"w6s", ["b"], .single, [], []⟩
      ⟨"x", [("a", .num 1)]⟩).2 "b" rfl rfl).1

/-! ### C8: no empty id set survives in a Multi index -/

/-- One incremental maintenance call on an index. -/
inductive IndexOp where
  | add (d : Document)
  | rem (d : Document)

/-- State after one maintenance call: a call that errors leaves the
index as it was (both `add_document` and `remove_document` return before
mutating anything when they fail). -/
def applyIndexOp (i : Index) : IndexOp → Index
  | .add d =>
      match i.addDocument d with
      | .ok i' => i'
      | .error _ => i
  | .rem d =>
      match i.removeDocument d with
      | .ok i' => i'
      | .error _ => i

/-- Adding a batch of documents in order. -/
def addAll : Index → List Document → Index
  | i, [] => i
  | i, d :: rest => addAll (applyIndexOp i (.add d)) rest

/-- Removing a batch of documents in order. -/
def removeAll : Index → List Document → Index
  | i, [] => i
  | i, d :: rest => removeAll (applyIndexOp i (.rem d)) rest

/-- No composite key of the multi store maps to an empty id set. -/
def MultiNoEmpty (i : Index) : Prop :=
  ∀ k s, getKV i.multiIndex k = some s → s ≠ []

theorem insertSet_ne_nil (s : List String) (x : String) : insertSet s x ≠ [] := by
  unfold insertSet
  split
  · next hcon =>
      cases s with
      | nil => simp at hcon
      | cons a t => simp
  · simp

theorem insertSet_mem (s : List String) (y x : String)
    (h : x ∈ insertSet s y) : x ∈ s ∨ x = y := by
  unfold insertSet at h
  split at h
  · exact Or.inl h
  · rcases List.mem_append.mp h with h | h
    · exact Or.inl h
    · simp at h; exact Or.inr h

theorem getIndexKey_congr (i1 i2 : Index) (h : i1.fields = i2.fields)
    (d : Document) : i1.getIndexKey d = i2.getIndexKey d := by
  unfold Index.getIndexKey
  rw [h]

/-- The invariant holds of a literal index once it holds of the multi
store put inside it. -/
theorem MultiNoEmpty_of (n : String) (f : List String) (t : IndexType)
    (si : List (String × String)) (mi : List (String × List String))
    (h : ∀ k s, getKV mi k = some s → s ≠ []) :
    MultiNoEmpty ⟨n, f, t, si, mi⟩ := h

/-- Computation lemma: `add_document` on a Multi index with computed key
`k` inserts the id into the key's set. -/
theorem addDocument_multi (i : Index) (d : Document) (k : String)
    (hit : i.itype = .multi) (hkey : i.getIndexKey d = .ok k) :
    i.addDocument d = .ok { i with multiIndex :=
      (setKV i.multiIndex k (insertSet ((getKV i.multiIndex k).getD []) d.id)) } := by
  simp [Index.addDocument, hkey, hit]

/-- Computation lemma: `remove_document` on a Multi index whose store
has no entry for the computed key leaves the index unchanged. -/
theorem removeDocument_multi_none (i : Index) (d : Document) (k : String)
    (hit : i.itype = .multi) (hkey : i.getIndexKey d = .ok k)
    (hg : getKV i.multiIndex k = none) : i.removeDocument d = .ok i := by
  simp [Index.removeDocument, hkey, hit, hg]

/-- Computation lemma: `remove_document` on a Multi index prunes the key
whose set empties after removal. -/
theorem removeDocument_multi_prune (i : Index) (d : Document) (k : String)
    (ids : List String)
    (hit : i.itype = .multi) (hkey : i.getIndexKey d = .ok k)
    (hg : getKV i.multiIndex k = some ids)
    (he : (removeSet ids d.id).isEmpty = true) :
    i.removeDocument d = .ok { i with multiIndex := delKV i.multiIndex k } := by
  simp [Index.removeDocument, hkey, hit, hg, he]

/-- Computation lemma: `remove_document` on a Multi index stores the
shrunken set when it stays non-empty. -/
theorem removeDocument_multi_keep (i : Index) (d : Document) (k : String)
    (ids : List String)
    (hit : i.itype = .multi) (hkey : i.getIndexKey d = .ok k)
    (hg : getKV i.multiIndex k = some ids)
    (he : (removeSet ids d.id).isEmpty = false) :
    i.removeDocument d =
      .ok { i with multiIndex := (setKV i.multiIndex k (removeSet ids d.id)) } := by
  simp [Index.removeDocument, hkey, hit, hg, he]

theorem MultiNoEmpty_addDocument (i : Index) (d : Document) (i' : Index)
    (hne : MultiNoEmpty i) (h : i.addDocument d = .ok i') : MultiNoEmpty i' := by
  cases hkey : i.getIndexKey d with
  | error e => simp [Index.addDocument, hkey] at h
  | ok key =>
      cases hit : i.itype with
      | single =>
          simp only [Index.addDocument, hkey, hit] at h
          cases hg : getKV i.singleIndex key with
          | some e => simp [hg] at h; rw [← h]; exact hne
          | none => simp [hg] at h; rw [← h]; exact hne
      | unique =>
          simp only [Index.addDocument, hkey, hit] at h
          cases hg : getKV i.singleIndex key with
          | some e =>
              by_cases hid : e = d.id
              · simp [hg, hid] at h; rw [← h]; exact hne
              · simp [hg, hid] at h
          | none => simp [hg] at h; rw [← h]; exact hne
      | multi =>
          rw [addDocument_multi i d key hit hkey] at h
          injection h with h
          rw [← h]
          apply MultiNoEmpty_of
          intro k s hks
          by_cases hk : k = key
          · subst hk
            rw [getKV_setKV_self] at hks
            injection hks with hks
            rw [← hks]
            exact insertSet_ne_nil _ _
          · rw [getKV_setKV_ne _ _ _ _ hk] at hks
            exact hne _ _ hks

theorem MultiNoEmpty_removeDocument (i : Index) (d : Document) (i' : Index)
    (hne : MultiNoEmpty i) (h : i.removeDocument d = .ok i') : MultiNoEmpty i' := by
  cases hkey : i.getIndexKey d with
  | error e => simp [Index.removeDocument, hkey] at h
  | ok key =>
      cases hit : i.itype with
      | single =>
          simp only [Index.removeDocument, hkey, hit] at h
          cases hg : getKV i.singleIndex key with
          | some e =>
              by_cases hid : e = d.id <;> simp [hg, hid] at h <;>
                rw [← h] <;> exact hne
          | none => simp [hg] at h; rw [← h]; exact hne
      | unique =>
          simp only [Index.removeDocument, hkey, hit] at h
          cases hg : getKV i.singleIndex key with
          | some e =>
              by_cases hid : e = d.id <;> simp [hg, hid] at h <;>
                rw [← h] <;> exact hne
          | none => simp [hg] at h; rw [← h]; exact hne
      | multi =>
          cases hg : getKV i.multiIndex key with
          | none =>
              rw [removeDocument_multi_none i d key hit hkey hg] at h
              injection h with h
              rw [← h]
              exact hne
          | some ids =>
              cases he : (removeSet ids d.id).isEmpty with
              | true =>
                  rw [removeDocument_multi_prune i d key ids hit hkey hg he] at h
                  injection h with h
                  rw [← h]
                  apply MultiNoEmpty_of
                  intro k s hks
                  by_cases hk : k = key
                  · subst hk; rw [getKV_delKV_self] at hks; cases hks
                  · rw [getKV_delKV_ne _ _ _ hk] at hks
                    exact hne _ _ hks
              | false =>
                  rw [removeDocument_multi_keep i d key ids hit hkey hg he] at h
                  injection h with h
                  rw [← h]
                  apply MultiNoEmpty_of
                  intro k s hks
                  by_cases hk : k = key
                  · subst hk
                    rw [getKV_setKV_self] at hks
                    injection hks with hks
                    rw [← hks]
                    intro hnil
                    rw [hnil] at he
                    simp at he
                  · rw [getKV_setKV_ne _ _ _ _ hk] at hks
                    exact hne _ _ hks

theorem MultiNoEmpty_applyOp (i : Index) (op : IndexOp)
    (hne : MultiNoEmpty i) : MultiNoEmpty (applyIndexOp i op) := by
  cases op with
  | add d =>
      cases h : i.addDocument d with
      | ok i' =>
          simp only [applyIndexOp, h]
          exact MultiNoEmpty_addDocument i d i' hne h
      | error e => simp only [applyIndexOp, h]; exact hne
  | rem d =>
      cases h : i.removeDocument d with
      | ok i' =>
          simp only [applyIndexOp, h]
          exact MultiNoEmpty_removeDocument i d i' hne h
      | error e => simp only [applyIndexOp, h]; exact hne

theorem MultiNoEmpty_foldl :
    ∀ (ops : List IndexOp) (i : Index), MultiNoEmpty i →
      MultiNoEmpty (ops.foldl applyIndexOp i) := by
  intro ops
  induction ops with
  | nil => intro i hne; exact hne
  | cons op rest ih =>
      intro i hne
      exact ih _ (MultiNoEmpty_applyOp i op hne)

theorem addDocument_pres (i : Index) (d : Document) (i' : Index)
    (h : i.addDocument d = .ok i') :
    i'.fields = i.fields ∧ i'.itype = i.itype := by
  cases hkey : i.getIndexKey d with
  | error e => simp [Index.addDocument, hkey] at h
  | ok key =>
      cases hit : i.itype with
      | single =>
          simp only [Index.addDocument, hkey, hit] at h
          cases hg : getKV i.singleIndex key with
          | some e => simp [hg] at h; rw [← h]; exact ⟨rfl, rfl⟩
          | none => simp [hg] at h; rw [← h]; exact ⟨rfl, rfl⟩
      | unique =>
          simp only [Index.addDocument, hkey, hit] at h
          cases hg : getKV i.singleIndex key with
          | some e =>
              by_cases hid : e = d.id
              · simp [hg, hid] at h; rw [← h]; exact ⟨rfl, rfl⟩
              · simp [hg, hid] at h
          | none => simp [hg] at h; rw [← h]; exact ⟨rfl, rfl⟩
      | multi =>
          rw [addDocument_multi i d key hit hkey] at h
          injection h with h
          rw [← h]
          exact ⟨rfl, by first | rfl | exact hit⟩

theorem removeDocument_pres (i : Index) (d : Document) (i' : Index)
    (h : i.removeDocument d = .ok i') :
    i'.fields = i.fields ∧ i'.itype = i.itype := by
  cases hkey : i.getIndexKey d with
  | error e => simp [Index.removeDocument, hkey] at h
  | ok key =>
      cases hit : i.itype with
      | single =>
          simp only [Index.removeDocument, hkey, hit] at h
          cases hg : getKV i.singleIndex key with
          | some e =>
              by_cases hid : e = d.id <;> simp [hg, hid] at h <;>
                rw [← h] <;> exact ⟨rfl, by first | rfl | exact hit⟩
          | none => simp [hg] at h; rw [← h]; exact ⟨rfl, by first | rfl | exact hit⟩
      | unique =>
          simp only [Index.removeDocument, hkey, hit] at h
          cases hg : getKV i.singleIndex key with
          | some e =>
              by_cases hid : e = d.id <;> simp [hg, hid] at h <;>
                rw [← h] <;> exact ⟨rfl, by first | rfl | exact hit⟩
          | none => simp [hg] at h; rw [← h]; exact ⟨rfl, by first | rfl | exact hit⟩
      | multi =>
          cases hg : getKV i.multiIndex key with
          | none =>
              rw [removeDocument_multi_none i d key hit hkey hg] at h
              injection h with h
              rw [← h]
              exact ⟨rfl, by first | rfl | exact hit⟩
          | some ids =>
              cases he : (removeSet ids d.id).isEmpty with
              | true =>
                  rw [removeDocument_multi_prune i d key ids hit hkey hg he] at h
                  injection h with h
                  rw [← h]
                  exact ⟨rfl, by first | rfl | exact hit⟩
              | false =>
                  rw [removeDocument_multi_keep i d key ids hit hkey hg he] at h
                  injection h with h
                  rw [← h]
                  exact ⟨rfl, by first | rfl | exact hit⟩

theorem removeSet_mem (s : List String) (x y : String) :
    y ∈ removeSet s x ↔ y ∈ s ∧ y ≠ x := by
  simp [removeSet]

theorem ne_nil_of_isEmpty_false {α : Type} (l : List α)
    (h : l.isEmpty = false) : l ≠ [] := by
  cases l <;> simp_all

/-- Adding documents that all share composite key `k` keeps the `k`
entry a non-empty subset of `S` (given the ids added lie in `S`). -/
theorem addAll_entry (k : String) (S : List String) :
    ∀ (docs : List Document) (i : Index),
      i.itype = .multi →
      (∀ d ∈ docs, i.getIndexKey d = .ok k) →
      (∀ d ∈ docs, d.id ∈ S) →
      (∀ s, getKV i.multiIndex k = some s → s ≠ [] ∧ ∀ x ∈ s, x ∈ S) →
      (addAll i docs).itype = .multi ∧ (addAll i docs).fields = i.fields ∧
      (∀ s, getKV (addAll i docs).multiIndex k = some s →
        s ≠ [] ∧ ∀ x ∈ s, x ∈ S) := by
  intro docs
  induction docs with
  | nil => intro i hit _ _ hinv; exact ⟨hit, rfl, hinv⟩
  | cons d rest ih =>
      intro i hit hkeys hids hinv
      have hd : i.getIndexKey d = .ok k := hkeys d (by simp)
      have hadd := addDocument_multi i d k hit hd
      have hstep : addAll i (d :: rest) =
          addAll { i with multiIndex :=
            (setKV i.multiIndex k
              (insertSet ((getKV i.multiIndex k).getD []) d.id)) } rest := by
        simp only [addAll, applyIndexOp, hadd]
      rw [hstep]
      have hres := ih { i with multiIndex :=
          (setKV i.multiIndex k
            (insertSet ((getKV i.multiIndex k).getD []) d.id)) }
        hit
        (fun d' hd' =>
          Eq.trans (getIndexKey_congr _ i rfl d') (hkeys d' (by simp [hd'])))
        (fun d' hd' => hids d' (by simp [hd']))
        (by
          intro s hs
          rw [show ({ i with multiIndex :=
              (setKV i.multiIndex k
                (insertSet ((getKV i.multiIndex k).getD []) d.id)) } :
              Index).multiIndex =
            setKV i.multiIndex k
              (insertSet ((getKV i.multiIndex k).getD []) d.id) from rfl,
            getKV_setKV_self] at hs
          injection hs with hs
          rw [← hs]
          refine ⟨insertSet_ne_nil _ _, ?_⟩
          intro x hx
          rcases insertSet_mem _ _ _ hx with hx | hx
          · cases hg : getKV i.multiIndex k with
            | none => rw [hg] at hx; cases hx
            | some s0 =>
                rw [hg] at hx
                exact (hinv s0 hg).2 x hx
          · rw [hx]
            exact hids d (by simp))
      exact ⟨hres.1, hres.2.1, hres.2.2⟩

/-- Removing documents that all share composite key `k` and jointly
cover the `k` entry's ids leaves no `k` entry behind. -/
theorem removeAll_entry (k : String) :
    ∀ (docs : List Document) (i : Index),
      i.itype = .multi →
      (∀ d ∈ docs, i.getIndexKey d = .ok k) →
      (∀ s, getKV i.multiIndex k = some s →
        s ≠ [] ∧ ∀ x ∈ s, x ∈ docs.map Document.id) →
      getKV ((removeAll i docs).multiIndex) k = none := by
  intro docs
  induction docs with
  | nil =>
      intro i _ _ hinv
      cases hg : getKV i.multiIndex k with
      | none => exact hg
      | some s =>
          obtain ⟨hne, hsub⟩ := hinv s hg
          cases s with
          | nil => exact absurd rfl hne
          | cons a t => simpa using hsub a (by simp)
  | cons d rest ih =>
      intro i hit hkeys hinv
      have hd : i.getIndexKey d = .ok k := hkeys d (by simp)
      cases hg : getKV i.multiIndex k with
      | none =>
          have hstep : removeAll i (d :: rest) = removeAll i rest := by
            simp only [removeAll, applyIndexOp,
              removeDocument_multi_none i d k hit hd hg]
          rw [hstep]
          exact ih i hit (fun d' hd' => hkeys d' (by simp [hd']))
            (fun s hs => by rw [hg] at hs; cases hs)
      | some ids =>
          obtain ⟨hne, hsub⟩ := hinv ids hg
          cases he : (removeSet ids d.id).isEmpty with
          | true =>
              have hstep : removeAll i (d :: rest) =
                  removeAll { i with multiIndex := delKV i.multiIndex k } rest := by
                simp only [removeAll, applyIndexOp,
                  removeDocument_multi_prune i d k ids hit hd hg he]
              rw [hstep]
              refine ih _ hit (fun d' hd' =>
                Eq.trans (getIndexKey_congr _ i rfl d')
                  (hkeys d' (by simp [hd']))) ?_
              intro s hs
              rw [show ({ i with multiIndex := delKV i.multiIndex k } :
                  Index).multiIndex = delKV i.multiIndex k from rfl,
                getKV_delKV_self] at hs
              cases hs
          | false =>
              have hstep : removeAll i (d :: rest) =
                  removeAll { i with multiIndex :=
                    (setKV i.multiIndex k (removeSet ids d.id)) } rest := by
                simp only [removeAll, applyIndexOp,
                  removeDocument_multi_keep i d k ids hit hd hg he]
              rw [hstep]
              refine ih _ hit (fun d' hd' =>
                Eq.trans (getIndexKey_congr _ i rfl d')
                  (hkeys d' (by simp [hd']))) ?_
              intro s hs
              rw [show ({ i with multiIndex :=
                  (setKV i.multiIndex k (removeSet ids d.id)) } :
                  Index).multiIndex =
                setKV i.multiIndex k (removeSet ids d.id) from rfl,
                getKV_setKV_self] at hs
              injection hs with hs
              rw [← hs]
              refine ⟨ne_nil_of_isEmpty_false _ he, ?_⟩
              intro x hx
              obtain ⟨hxs, hxd⟩ := (removeSet_mem _ _ _).mp hx
              have := hsub x hxs
              simp only [List.map_cons, List.mem_cons] at this
              rcases this with h1 | h1
              · exact absurd h1 hxd
              · simpa using h1

/-- C8: over any sequence of `add_document`/`remove_document` calls a
Multi index never maps a composite key to an empty id set, and adding N
documents sharing a key to an index where the key is absent and then
removing all N leaves the key absent from the key store. -/
theorem C8_multi_index_never_empty :
    ∀ (idx : Index),
      (∀ ops : List IndexOp, MultiNoEmpty idx →
        MultiNoEmpty (ops.foldl applyIndexOp idx)) ∧
      (∀ (docs : List Document) (k : String),
        idx.itype = .multi →
        (∀ d ∈ docs, idx.getIndexKey d = .ok k) →
        getKV idx.multiIndex k = none →
        getKV ((removeAll (addAll idx docs) docs).multiIndex) k = none) := by
  intro idx
  constructor
  · intro ops hne
    exact MultiNoEmpty_foldl ops idx hne
  · intro docs k hit hkeys hg
    obtain ⟨hit1, hf1, hinv1⟩ := addAll_entry k (docs.map Document.id) docs idx
      hit hkeys (fun d hd => List.mem_map_of_mem Document.id hd)
      (fun s hs => by rw [hg] at hs; cases hs)
    exact removeAll_entry k docs (addAll idx docs) hit1
      (fun d hd => Eq.trans (getIndexKey_congr _ idx hf1 d) (hkeys d hd))
      hinv1

/-- Witness for C8: the empty multi index on `a` satisfies the
invariant after one add, and adding then removing two documents sharing
`a = 1` leaves no entry for key `"1"`. -/
theorem C8_witness :
    MultiNoEmpty ([IndexOp.add ⟨"3", [("a", .num 2)]⟩].foldl applyIndexOp
      ⟨"w8", ["a"], .multi, [], []⟩) ∧
    getKV ((removeAll (addAll ⟨"w8", ["a"], .multi, [], []⟩
        [⟨"1", [("a", .num 1)]⟩, ⟨"2", [("a", .num 1)]⟩])
        [⟨"1", [("a", .num 1)]⟩, ⟨"2", [("a", .num 1)]⟩]).multiIndex) "1" = none :=
  ⟨(C8_multi_index_never_empty ⟨"w8", ["a"], .multi, [], []⟩).1
      [IndexOp.add ⟨"3", [("a", .num 2)]⟩]
      (fun k s hs => by simp [getKV] at hs),
    (C8_multi_index_never_empty ⟨"w8", ["a"], .multi, [], []⟩).2
      [⟨"1", [("a", .num 1)]⟩, ⟨"2", [("a", .num 1)]⟩] "1" rfl
      (by
        intro d hd
        rcases List.mem_cons.mp hd with h | h
        · rw [h]; rfl
        · rcases List.mem_cons.mp h with h' | h'
          · rw [h']; rfl
          · cases h')
      rfl⟩

/-! ### C7: distinct document ids -/

/-- No two documents of the collection share an id. -/
def IdsNodup (c : Collection) : Prop :=
  (c.documents.map Document.id).Nodup

theorem set_getD_self {α : Type} (l : List α) (n : Nat) (d0 : α) :
    l.set n (l.getD n d0) = l := by
  induction l generalizing n with
  | nil => simp
  | cons a t ih =>
      cases n with
      | zero => rfl
      | succ m =>
          rw [List.getD_cons_succ]
          show a :: t.set m (t.getD m d0) = a :: t
          rw [ih]

/-- Unfolding of one `update` loop step, with the tuple matches written
through projections (definitionally equal by structure eta). -/
theorem updateLoop_cons_eq (u : Json) (docs : List Document)
    (idxs : List (String × Index)) (i : Nat) (rest : List Nat) (count : Nat) :
    updateLoop u docs idxs (i :: rest) count =
      (match (removeDocAllIndexes idxs (docs.getD i ⟨"", []⟩)).2 with
       | some e =>
          (docs, (removeDocAllIndexes idxs (docs.getD i ⟨"", []⟩)).1, .error e)
       | none =>
          match ((docs.getD i ⟨"", []⟩).applyUpdate u).2 with
          | some e =>
              (docs.set i ((docs.getD i ⟨"", []⟩).applyUpdate u).1,
               (removeDocAllIndexes idxs (docs.getD i ⟨"", []⟩)).1,
               .error ("Failed to apply update: " ++ e))
          | none =>
              match (addDocAllIndexes
                  (removeDocAllIndexes idxs (docs.getD i ⟨"", []⟩)).1
                  ((docs.getD i ⟨"", []⟩).applyUpdate u).1).2 with
              | some e =>
                  (docs.set i ((docs.getD i ⟨"", []⟩).applyUpdate u).1,
                   (addDocAllIndexes
                     (removeDocAllIndexes idxs (docs.getD i ⟨"", []⟩)).1
                     ((docs.getD i ⟨"", []⟩).applyUpdate u).1).1,
                   .error e)
              | none =>
                  updateLoop u (docs.set i ((docs.getD i ⟨"", []⟩).applyUpdate u).1)
                    (addDocAllIndexes
                      (removeDocAllIndexes idxs (docs.getD i ⟨"", []⟩)).1
                      ((docs.getD i ⟨"", []⟩).applyUpdate u).1).1
                    rest (count + 1)) := by
  cases hrem : removeDocAllIndexes idxs (docs[i]?.getD ⟨"", []⟩) with
  | mk idxs2 err =>
      cases err with
      | some e => simp [updateLoop, hrem]
      | none =>
          cases happ : (docs[i]?.getD ⟨"", []⟩).applyUpdate u with
          | mk d2 errU =>
              cases errU with
              | some e => simp [updateLoop, hrem, happ]
              | none =>
                  cases hadd : addDocAllIndexes idxs2 d2 with
                  | mk idxs3 err2 =>
                      cases err2 with
                      | some e => simp [updateLoop, hrem, happ, hadd]
                      | none => simp [updateLoop, hrem, happ, hadd]

/-- Unfolding of one `delete` loop step through projections. -/
theorem deleteLoop_cons_eq (docs : List Document)
    (idxs : List (String × Index)) (i : Nat) (rest : List Nat) (count : Nat) :
    deleteLoop docs idxs (i :: rest) count =
      (match (removeDocAllIndexes idxs (docs.getD i ⟨"", []⟩)).2 with
       | some e =>
          (docs, (removeDocAllIndexes idxs (docs.getD i ⟨"", []⟩)).1, .error e)
       | none =>
          deleteLoop (docs.eraseIdx i)
            (removeDocAllIndexes idxs (docs.getD i ⟨"", []⟩)).1
            rest (count + 1)) := by
  cases hrem : removeDocAllIndexes idxs (docs[i]?.getD ⟨"", []⟩) with
  | mk idxs2 err =>
      cases err with
      | some e => simp [deleteLoop, hrem]
      | none => simp [deleteLoop, hrem]

/-- Unfolding of one `from_json` rebuild step through projections. -/
theorem fromJsonLoop_cons_eq (d : Document) (rest acc : List Document)
    (idxs : List (String × Index)) :
    fromJsonLoop (d :: rest) acc idxs =
      (match (addDocAllIndexes idxs d).2 with
       | some e => (acc ++ [d], (addDocAllIndexes idxs d).1, .error e)
       | none => fromJsonLoop rest (acc ++ [d]) (addDocAllIndexes idxs d).1) := by
  cases hadd : addDocAllIndexes idxs d with
  | mk idxs2 err =>
      cases err with
      | some e => simp [fromJsonLoop, hadd]
      | none => simp [fromJsonLoop, hadd]

/-- Unfolding of `Collection.insert` through projections. -/
theorem insert_eq (c : Collection) (doc0 : Document) (gen : String) :
    c.insert doc0 gen =
      (if c.documents.any (fun d =>
          d.id = (if !doc0.hasId then { doc0 with id := gen } else doc0).id) then
        (c, .error ("Document with ID "
          ++ (if !doc0.hasId then { doc0 with id := gen } else doc0).id
          ++ " already exists"))
      else
        match (addDocAllIndexes c.indexes
            (if !doc0.hasId then { doc0 with id := gen } else doc0)).2 with
        | some e =>
            ({ c with indexes := (addDocAllIndexes c.indexes
                (if !doc0.hasId then { doc0 with id := gen } else doc0)).1 },
             .error e)
        | none =>
            ({ c with
                indexes := (addDocAllIndexes c.indexes
                  (if !doc0.hasId then { doc0 with id := gen } else doc0)).1,
                documents := c.documents ++
                  [if !doc0.hasId then { doc0 with id := gen } else doc0] },
             .ok (if !doc0.hasId then { doc0 with id := gen } else doc0).id)) := by
  simp only [Collection.insert]
  by_cases hany : (c.documents.any fun d =>
      d.id = (if !doc0.hasId then { doc0 with id := gen } else doc0).id) = true
  · rw [if_pos hany, if_pos hany]
  · rw [if_neg hany, if_neg hany]
    cases hadd : addDocAllIndexes c.indexes
        (if !doc0.hasId then { doc0 with id := gen } else doc0) with
    | mk idxs2 err =>
        cases err with
        | some e => rfl
        | none => rfl

/-- Unfolding of `Collection.update` through projections. -/
theorem update_eq (c : Collection) (q : Query) (u : Json) :
    c.update q u =
      ({ c with
          documents :=
            (updateLoop u c.documents c.indexes
              (matchedPositions c.documents q) 0).1,
          indexes :=
            (updateLoop u c.documents c.indexes
              (matchedPositions c.documents q) 0).2.1 },
       (updateLoop u c.documents c.indexes
         (matchedPositions c.documents q) 0).2.2) := by
  cases hl : updateLoop u c.documents c.indexes
      (matchedPositions c.documents q) 0 with
  | mk a bc =>
      cases bc with
      | mk b r => simp [Collection.update, hl]

/-- Unfolding of `Collection.delete` through projections. -/
theorem delete_eq (c : Collection) (q : Query) :
    c.delete q =
      ({ c with
          documents :=
            (deleteLoop c.documents c.indexes
              (matchedPositions c.documents q).reverse 0).1,
          indexes :=
            (deleteLoop c.documents c.indexes
              (matchedPositions c.documents q).reverse 0).2.1 },
       (deleteLoop c.documents c.indexes
         (matchedPositions c.documents q).reverse 0).2.2) := by
  cases hl : deleteLoop c.documents c.indexes
      (matchedPositions c.documents q).reverse 0 with
  | mk a bc =>
      cases bc with
      | mk b r => simp [Collection.delete, hl]

/-- Unfolding of `Collection.fromJson` through projections. -/
theorem fromJson_eq (c : Collection) (docs : List Document) :
    c.fromJson docs =
      ({ c with
          documents :=
            (fromJsonLoop docs []
              (c.indexes.map (fun p => (p.1, p.2.clear)))).1,
          indexes :=
            (fromJsonLoop docs []
              (c.indexes.map (fun p => (p.1, p.2.clear)))).2.1 },
       (fromJsonLoop docs []
         (c.indexes.map (fun p => (p.1, p.2.clear)))).2.2) := by
  cases hl : fromJsonLoop docs []
      (c.indexes.map (fun p => (p.1, p.2.clear))) with
  | mk a bc =>
      cases bc with
      | mk b r => simp [Collection.fromJson, hl]

/-- Case split on what `insert` does to the document list: unchanged on
any failure, or appended with the (id-completed) document when no
current document claims its id. -/
theorem insert_documents_cases (c : Collection) (doc0 : Document) (gen : String) :
    (c.insert doc0 gen).1.documents = c.documents ∨
    ((c.insert doc0 gen).1.documents =
      c.documents ++ [if !doc0.hasId then { doc0 with id := gen } else doc0] ∧
     (c.documents.any fun d =>
        d.id = (if !doc0.hasId then { doc0 with id := gen } else doc0).id) = false) := by
  rw [insert_eq]
  by_cases hany : (c.documents.any fun d =>
      d.id = (if !doc0.hasId then { doc0 with id := gen } else doc0).id) = true
  · left; rw [if_pos hany]
  · rw [if_neg hany]
    cases hadd : (addDocAllIndexes c.indexes
        (if !doc0.hasId then { doc0 with id := gen } else doc0)).2 with
    | some e => left; rfl
    | none =>
        right
        exact ⟨rfl, by rwa [Bool.not_eq_true] at hany⟩

theorem map_id_set_applyUpdate (docs : List Document) (i : Nat) (u : Json) :
    ((List.map Document.id docs).set i
        (((docs[i]?.getD ⟨"", []⟩).applyUpdate u).1.id)) =
      List.map Document.id docs := by
  rw [applyUpdate_id]
  cases hi : docs[i]? with
  | none =>
      apply List.set_eq_of_length_le
      rw [List.length_map]
      exact List.getElem?_eq_none_iff.mp hi
  | some d =>
      have hd : (List.map Document.id docs).getD i "" = d.id := by
        simp [List.getD, List.getElem?_map, hi]
      show (List.map Document.id docs).set i d.id = List.map Document.id docs
      rw [← hd, set_getD_self]

theorem updateLoop_ids (u : Json) :
    ∀ (ps : List Nat) (docs : List Document) (idxs : List (String × Index))
      (count : Nat),
      ((updateLoop u docs idxs ps count).1.map Document.id) =
        docs.map Document.id := by
  intro ps
  induction ps with
  | nil => intro docs idxs count; rfl
  | cons i rest ih =>
      intro docs idxs count
      rw [updateLoop_cons_eq]
      cases hrem : (removeDocAllIndexes idxs (docs.getD i ⟨"", []⟩)).2 with
      | some e => rfl
      | none =>
          cases herr : ((docs.getD i ⟨"", []⟩).applyUpdate u).2 with
          | some e => simp [map_id_set_applyUpdate]
          | none =>
              cases hadd : (addDocAllIndexes
                  (removeDocAllIndexes idxs (docs.getD i ⟨"", []⟩)).1
                  ((docs.getD i ⟨"", []⟩).applyUpdate u).1).2 with
              | some e => simp [map_id_set_applyUpdate]
              | none => simp [ih, map_id_set_applyUpdate]

theorem deleteLoop_sublist :
    ∀ (ps : List Nat) (docs : List Document) (idxs : List (String × Index))
      (count : Nat),
      List.Sublist (deleteLoop docs idxs ps count).1 docs := by
  intro ps
  induction ps with
  | nil => intro docs idxs count; exact List.Sublist.refl docs
  | cons i rest ih =>
      intro docs idxs count
      rw [deleteLoop_cons_eq]
      cases hrem : (removeDocAllIndexes idxs (docs.getD i ⟨"", []⟩)).2 with
      | some e => exact List.Sublist.refl docs
      | none =>
          exact (ih (docs.eraseIdx i) _ (count + 1)).trans
            (List.eraseIdx_sublist docs i)

theorem fromJsonLoop_nodup :
    ∀ (docs acc : List Document) (idxs : List (String × Index)),
      (((acc ++ docs).map Document.id).Nodup) →
      (((fromJsonLoop docs acc idxs).1.map Document.id).Nodup) := by
  intro docs
  induction docs with
  | nil => intro acc idxs h; simpa using h
  | cons d rest ih =>
      intro acc idxs h
      rw [fromJsonLoop_cons_eq]
      cases hadd : (addDocAllIndexes idxs d).2 with
      | some e =>
          have hsub : List.Sublist (acc ++ [d]) (acc ++ d :: rest) :=
            List.Sublist.append_left
              (List.Sublist.cons₂ d (List.nil_sublist rest)) acc
          exact List.Nodup.sublist (hsub.map Document.id) h
      | none =>
          apply ih (acc ++ [d])
          rw [List.append_assoc]
          simpa using h

/-- C7 amended: insert, update, delete, create_index and drop_index all
preserve the pairwise-distinctness of document ids for every input;
`from_json`, however, installs the supplied documents without any
duplicate check (its result is a prefix of the supplied list), so it
preserves the invariant exactly when the supplied document list itself
carries pairwise distinct ids — see the counterexample for a duplicated
input. -/
theorem C7_amended :
    ∀ (c : Collection), IdsNodup c →
      (∀ (doc0 : Document) (gen : String), IdsNodup (c.insert doc0 gen).1) ∧
      (∀ (q : Query) (u : Json), IdsNodup (c.update q u).1) ∧
      (∀ q : Query, IdsNodup (c.delete q).1) ∧
      (∀ (n : String) (fs : List String) (ts : String),
        IdsNodup (c.createIndex n fs ts).1) ∧
      (∀ n : String, IdsNodup (c.dropIndex n).1) ∧
      (∀ docs : List Document, (docs.map Document.id).Nodup →
        IdsNodup (c.fromJson docs).1) := by
  intro c h
  refine ⟨?_, ?_, ?_, ?_, ?_, ?_⟩
  · intro doc0 gen
    rcases insert_documents_cases c doc0 gen with hdoc | ⟨hdoc, hany⟩
    · unfold IdsNodup; rw [hdoc]; exact h
    · unfold IdsNodup
      rw [hdoc, List.map_append]
      refine List.Nodup.append h (List.nodup_singleton _) ?_
      intro x hx hx2
      simp only [List.map_cons, List.map_nil, List.mem_singleton] at hx2
      simp only [List.mem_map] at hx
      obtain ⟨d0, hd0, hid⟩ := hx
      simp only [List.any_eq_false, decide_eq_true_eq] at hany
      exact hany d0 hd0 (hid.trans hx2)
  · intro q u
    rw [update_eq]
    unfold IdsNodup
    simp only
    rw [updateLoop_ids]
    exact h
  · intro q
    rw [delete_eq]
    unfold IdsNodup
    simp only
    exact List.Nodup.sublist
      ((deleteLoop_sublist _ _ _ _).map Document.id) h
  · intro n fs ts
    unfold Collection.createIndex
    cases hty : (if ts = "single" then some IndexType.single
      else if ts = "unique" then some IndexType.unique
      else if ts = "multi" then some IndexType.multi else none) with
    | none => simpa [hty] using h
    | some t =>
        cases hbf : backfill (Index.new n fs t) c.documents with
        | error e => simpa [hty, hbf] using h
        | ok idx => simpa [hty, hbf] using h
  · intro n
    exact h
  · intro docs hdocs
    rw [fromJson_eq]
    unfold IdsNodup
    simp only
    apply fromJsonLoop_nodup
    simpa using hdocs

/-- Witness for C7: inserting a fresh id into a one-document collection
and reloading a duplicate-free list both keep ids distinct. -/
theorem C7_witness :
    IdsNodup ((Collection.mk "w7" [⟨"1", []⟩] []).insert ⟨"2", []⟩ "g").1 ∧
    IdsNodup ((Collection.mk "w7" [⟨"1", []⟩] []).fromJson
      [⟨"a", []⟩, ⟨"b", []⟩]).1 :=
  ⟨(C7_amended (Collection.mk "w7" [⟨"1", []⟩] [])
      (by unfold IdsNodup; decide)).1 ⟨"2", []⟩ "g",
    (C7_amended (Collection.mk "w7" [⟨"1", []⟩] [])
      (by unfold IdsNodup; decide)).2.2.2.2.2 [⟨"a", []⟩, ⟨"b", []⟩] (by decide)⟩

/-! ### C9: serialisation round trip -/

theorem backfill_cons (i : Index) (d : Document) (rest : List Document)
    (i' : Index) (h : backfill i (d :: rest) = .ok i') :
    ∃ i1, i.addDocument d = .ok i1 ∧ backfill i1 rest = .ok i' := by
  cases h1 : i.addDocument d with
  | error e => simp [backfill, h1] at h
  | ok i1 => exact ⟨i1, rfl, by simpa [backfill, h1] using h⟩

theorem addAll_eq_of_backfill :
    ∀ (docs : List Document) (i i' : Index), backfill i docs = .ok i' →
      addAll i docs = i' := by
  intro docs
  induction docs with
  | nil =>
      intro i i' h
      simp only [backfill, Except.ok.injEq] at h
      exact h
  | cons d rest ih =>
      intro i i' h
      obtain ⟨i1, h1, h2⟩ := backfill_cons i d rest i' h
      show addAll (applyIndexOp i (.add d)) rest = i'
      rw [show applyIndexOp i (.add d) = i1 from by simp [applyIndexOp, h1]]
      exact ih i1 i' h2

theorem addDocAllIndexes_ok :
    ∀ (idxs : List (String × Index)) (d : Document),
      (∀ p ∈ idxs, ∃ i', p.2.addDocument d = .ok i') →
      addDocAllIndexes idxs d =
        (idxs.map (fun p => (p.1, applyIndexOp p.2 (.add d))), none) := by
  intro idxs
  induction idxs with
  | nil => intro d h; rfl
  | cons p rest ih =>
      intro d h
      obtain ⟨n, i⟩ := p
      obtain ⟨i1, hi1⟩ := h (n, i) (by simp)
      simp only [addDocAllIndexes, hi1, List.map_cons]
      rw [ih d (fun p hp => h p (by simp [hp]))]
      simp only [applyIndexOp, hi1]

/-- The document-by-document rebuild loop, when every index's backfill
over the whole supplied list succeeds, appends all documents and leaves
each index backfilled. -/
theorem fromJsonLoop_ok :
    ∀ (docs acc : List Document) (idxs : List (String × Index)),
      (∀ p ∈ idxs, ∃ i', backfill p.2 docs = .ok i') →
      fromJsonLoop docs acc idxs =
        (acc ++ docs, idxs.map (fun p => (p.1, addAll p.2 docs)), .ok ()) := by
  intro docs
  induction docs with
  | nil =>
      intro acc idxs h
      show (acc, idxs, Except.ok ()) = _
      rw [show (fun (p : String × Index) =>
          (p.1, addAll p.2 ([] : List Document))) = id from rfl,
        List.map_id, List.append_nil]
  | cons d rest ih =>
      intro acc idxs h
      have hadd : ∀ p ∈ idxs, ∃ i1, p.2.addDocument d = .ok i1 := by
        intro p hp
        obtain ⟨i', hbf⟩ := h p hp
        obtain ⟨i1, h1, _⟩ := backfill_cons p.2 d rest i' hbf
        exact ⟨i1, h1⟩
      rw [fromJsonLoop_cons_eq]
      rw [addDocAllIndexes_ok idxs d hadd]
      show fromJsonLoop rest (acc ++ [d])
          (idxs.map (fun p => (p.1, applyIndexOp p.2 (.add d)))) = _
      rw [ih (acc ++ [d]) (idxs.map (fun p => (p.1, applyIndexOp p.2 (.add d))))
        (by
          intro p1 hp1
          simp only [List.mem_map] at hp1
          obtain ⟨p, hp, rfl⟩ := hp1
          obtain ⟨i', hbf⟩ := h p hp
          obtain ⟨i1, h1, h2⟩ := backfill_cons p.2 d rest i' hbf
          refine ⟨i', ?_⟩
          show backfill (applyIndexOp p.2 (.add d)) rest = .ok i'
          rw [show applyIndexOp p.2 (.add d) = i1 from by
            simp [applyIndexOp, h1]]
          exact h2)]
      rw [List.append_assoc, List.singleton_append, List.map_map]
      have hfun : ∀ p ∈ idxs,
          ((fun p => ((p : String × Index).1, addAll p.2 rest))
            ∘ (fun p => (p.1, applyIndexOp p.2 (.add d)))) p =
          (fun p => (p.1, addAll p.2 (d :: rest))) p :=
        fun p _ => rfl
      rw [List.map_congr_left hfun]

/-- C9 amended: for every collection whose installed indexes each equal
the backfill of their cleared self over the collection's documents in
order — the consistent states successful operations produce —
`from_json (to_json C)` succeeds and reproduces the collection exactly:
the same document list and the same per-index key→id associations.  For
an inconsistent index state (reachable through the C2/C3 code bugs) the
round trip instead rebuilds the indexes from the documents and drops the
stale associations — see the counterexample. -/
theorem C9_amended :
    ∀ (c : Collection),
      (∀ p ∈ c.indexes, backfill (Index.clear p.2) c.documents = .ok p.2) →
      c.fromJson c.toJson = (c, .ok ()) := by
  intro c h
  rw [fromJson_eq]
  have hex : ∀ p ∈ c.indexes.map (fun p => (p.1, p.2.clear)),
      ∃ i', backfill p.2 c.toJson = .ok i' := by
    intro p hp
    simp only [List.mem_map] at hp
    obtain ⟨q, hq, rfl⟩ := hp
    exact ⟨q.2, h q hq⟩
  rw [fromJsonLoop_ok c.toJson [] (c.indexes.map (fun p => (p.1, p.2.clear))) hex]
  rw [List.map_map]
  have hmap : List.map ((fun p => ((p : String × Index).1, addAll p.2 c.toJson))
      ∘ (fun p => (p.1, p.2.clear))) c.indexes = c.indexes := by
    have hpt : ∀ p ∈ c.indexes,
        ((fun p => ((p : String × Index).1, addAll p.2 c.toJson))
          ∘ (fun p => (p.1, p.2.clear))) p = id p := by
      intro p hp
      show (p.1, addAll p.2.clear c.toJson) = p
      rw [addAll_eq_of_backfill c.toJson p.2.clear p.2 (h p hp)]
    rw [List.map_congr_left hpt, List.map_id]
  rw [hmap]
  rfl

def exW9 : Collection :=
  ⟨"w9", [⟨"1", [("a", .num 1)]⟩],
    [("m", ⟨"m", ["a"], .multi, [], [("1", ["1"])]⟩)]⟩

/-- Witness for C9 at a one-document collection whose multi index agrees
with the backfill of its documents. -/
theorem C9_witness :
    Collection.fromJson exW9 (Collection.toJson exW9) = (exW9, .ok ()) :=
  C9_amended exW9 (by
    intro p hp
    simp only [exW9, List.mem_singleton] at hp
    subst hp
    rfl)

end Nebulus
